import Mathlib

/-!
Verification of the EduScript core: the PEG grammar (src/parser/eduscript.pegjs)
and the timeline evaluator (src/services/renderer.ts, calculateFrameState).

Numbers are modelled as exact rationals.  JavaScript arithmetic on the values
the parser produces is rational except for division by zero, which yields
NaN or a signed infinity; the type JsNum captures exactly those outcomes.
-/

/-- Result of a JavaScript floating-point operation on otherwise-rational
values: a rational, NaN, or a signed infinity. -/
inductive JsNum where
  | num : ℚ → JsNum
  | nan : JsNum
  | inf : JsNum
  | negInf : JsNum
deriving DecidableEq, Repr

/-- JavaScript division `a / b` on rational operands: rational when `b ≠ 0`,
`NaN` for `0 / 0`, a signed infinity for `a / 0` with `a ≠ 0`. -/
def jsDivQ (a b : ℚ) : JsNum :=
  if b = 0 then
    if a = 0 then JsNum.nan
    else if 0 < a then JsNum.inf else JsNum.negInf
  else JsNum.num (a / b)

/-- JavaScript `1 - x` for a JsNum `x` (`1 - NaN = NaN`, `1 - ∞ = -∞`). -/
def oneMinusJs : JsNum → JsNum
  | JsNum.num q => JsNum.num (1 - q)
  | JsNum.nan => JsNum.nan
  | JsNum.inf => JsNum.negInf
  | JsNum.negInf => JsNum.inf

/-- Variants of a visual element (`text(...)` / `circle(...)` in the grammar). -/
inductive ElementType where
  | text : ElementType
  | circle : ElementType
deriving DecidableEq, Repr

/-- An `at: (x, y)` anchor position in script space. -/
structure Pos where
  x : ℚ
  y : ℚ
deriving DecidableEq, Repr

/-- A visual element as produced by the grammar rules `TextElement` /
`CircleElement`: text elements carry `content` and no `radius`, circles carry
`radius` and no `content` (absent JS object fields are `Option.none`).
The source field `at` is spelled `at_` because `at` is a Lean keyword. -/
structure VisualElement where
  type : ElementType
  id : String
  content : Option String
  radius : Option ℚ
  at_ : Pos
deriving DecidableEq, Repr

/-- The `in` / `out` direction of a `fade` command. -/
inductive FadeDirection where
  | fadeIn : FadeDirection
  | fadeOut : FadeDirection
deriving DecidableEq, Repr

/-- A `fade(target, direction, duration: ...)` animation command
(`FadeCommand` grammar rule; JS object `{type:'fade', target, direction,
duration}`). -/
structure FadeCommand where
  target : String
  direction : FadeDirection
  duration : ℚ
deriving DecidableEq, Repr

/-- An `at(time) { ... }` timeline event (`TimelineEvent` grammar rule; JS
object `{type:'at', time, animations}`). -/
structure TimelineEvent where
  time : ℚ
  animations : List FadeCommand
deriving DecidableEq, Repr

/-- The `Scene` interface of src/parser/parser.d.ts: `title`, a required
`duration`, optional `narration`, and the `visuals` and `timeline` lists.
This is the type the evaluator consumes. -/
structure Scene where
  title : String
  duration : ℚ
  narration : Option String
  visuals : List VisualElement
  timeline : List TimelineEvent
deriving DecidableEq, Repr

/-- The `ElementState` interface of src/services/renderer.ts: the state of a
single visual element at a specific moment in time. -/
structure ElementState where
  id : String
  type : ElementType
  opacity : JsNum
  content : Option String
  radius : Option ℚ
  x : ℚ
  y : ℚ
deriving DecidableEq, Repr

/-- Step 1 of `calculateFrameState`: the initial state pushed for a visual
element — static fields copied, `opacity = 1`, position the declared anchor. -/
def initState (e : VisualElement) : ElementState :=
  { id := e.id
    type := e.type
    opacity := JsNum.num 1
    content := e.content
    radius := e.radius
    x := e.at_.x
    y := e.at_.y }

/-- The body of the fade branch of `calculateFrameState` for one resolved
target element: the special instant-hide case, the active-window
interpolation, and the terminal clamp, in the source's branch order. -/
def fadeUpdate (timeS : ℚ) (animStartTime : ℚ) (anim : FadeCommand)
    (el : ElementState) : ElementState :=
  let animDuration := anim.duration
  let animEndTime := animStartTime + animDuration
  if anim.direction = FadeDirection.fadeOut ∧ animDuration = 0 then
    if animStartTime ≤ timeS then { el with opacity := JsNum.num 0 } else el
  else if animStartTime ≤ timeS ∧ timeS ≤ animEndTime then
    let progress := jsDivQ (timeS - animStartTime) animDuration
    if anim.direction = FadeDirection.fadeIn then { el with opacity := progress }
    else { el with opacity := oneMinusJs progress }
  else if animEndTime < timeS then
    { el with opacity :=
        if anim.direction = FadeDirection.fadeIn then JsNum.num 1 else JsNum.num 0 }
  else el

/-- One animation command applied to the frame list:
`frameState.find(el => el.id === anim.target)` resolves the first element
whose id matches and mutates it in place; no match is a silent no-op. -/
def applyAnim (timeS : ℚ) (animStartTime : ℚ) (anim : FadeCommand) :
    List ElementState → List ElementState
  | [] => []
  | el :: rest =>
    if el.id = anim.target then fadeUpdate timeS animStartTime anim el :: rest
    else el :: applyAnim timeS animStartTime anim rest

/-- `calculateFrameState` from src/services/renderer.ts: initialize one state
per visual element, then iterate the timeline events and their animation
commands in declaration order. -/
def calculateFrameState (scene : Scene) (timeMs : ℚ) : List ElementState :=
  let timeS := timeMs / 1000
  let init := scene.visuals.map initState
  scene.timeline.foldl
    (fun fs ev =>
      ev.animations.foldl (fun fs2 anim => applyAnim timeS ev.time anim fs2) fs)
    init

/-- The scene's animation commands flattened in declaration order, each paired
with its event's start time — the exact order the evaluator's nested loops
visit them. -/
def sceneCmds (scene : Scene) : List (ℚ × FadeCommand) :=
  scene.timeline.flatMap (fun ev => ev.animations.map (fun a => (ev.time, a)))

/-- Whether a fade command's condition matches at sample time `timeS` — i.e.
whether `fadeUpdate` overwrites the target's opacity (rather than leaving it
unchanged). -/
def fadeMatches (timeS : ℚ) (animStartTime : ℚ) (anim : FadeCommand) : Bool :=
  if anim.direction = FadeDirection.fadeOut ∧ anim.duration = 0 then
    decide (animStartTime ≤ timeS)
  else
    decide ((animStartTime ≤ timeS ∧ timeS ≤ animStartTime + anim.duration) ∨
      animStartTime + anim.duration < timeS)

/-- The opacity a matching fade command writes at sample time `timeS`
(independent of the opacity computed so far — an overwrite, not a blend). -/
def fadeValue (timeS : ℚ) (animStartTime : ℚ) (anim : FadeCommand) : JsNum :=
  if anim.direction = FadeDirection.fadeOut ∧ anim.duration = 0 then
    JsNum.num 0
  else if animStartTime ≤ timeS ∧ timeS ≤ animStartTime + anim.duration then
    if anim.direction = FadeDirection.fadeIn then
      jsDivQ (timeS - animStartTime) anim.duration
    else oneMinusJs (jsDivQ (timeS - animStartTime) anim.duration)
  else if anim.direction = FadeDirection.fadeIn then JsNum.num 1
  else JsNum.num 0

/-- The commands of `cmds` targeting id `tid`, in declaration order. -/
def cmdsFor (tid : String) (cmds : List (ℚ × FadeCommand)) :
    List (ℚ × FadeCommand) :=
  cmds.filter (fun c => c.2.target = tid)

/-- Folding a command list over a single element state. -/
def runCmds (timeS : ℚ) (cmds : List (ℚ × FadeCommand)) (el : ElementState) :
    ElementState :=
  cmds.foldl (fun e c => fadeUpdate timeS c.1 c.2 e) el

/-- Folding a command list over the whole frame list. -/
def foldAnims (timeS : ℚ) (cmds : List (ℚ × FadeCommand))
    (fs : List ElementState) : List ElementState :=
  cmds.foldl (fun acc c => applyAnim timeS c.1 c.2 acc) fs

/-!
## Parser embedding

The PEG grammar of src/parser/eduscript.pegjs, embedded as parsers over
`List Char`.  A parser returns the semantic value and the unconsumed suffix,
or `none` on a grammar mismatch (PEG ordered choice and greedy repetition).
The generated Peggy parser additionally requires the start rule to consume
the entire input.
-/

/-- A PEG parser: input characters to value plus unconsumed rest, or failure. -/
def P (α : Type) : Type := List Char → Option (α × List Char)

/-- Succeed without consuming input. -/
def pPure {α : Type} (a : α) : P α := fun inp => some (a, inp)

/-- PEG sequencing: run `p`, then `f` on its value from where `p` stopped. -/
def pBind {α β : Type} (p : P α) (f : α → P β) : P β := fun inp =>
  match p inp with
  | some (a, rest) => f a rest
  | none => none

instance : Monad P where
  pure := pPure
  bind := pBind

/-- PEG ordered choice: `q` is tried only where `p` fails, from the same
position. -/
def pOr {α : Type} (p q : P α) : P α := fun inp =>
  match p inp with
  | some r => some r
  | none => q inp

/-- Match a literal string. -/
def pLit (s : String) : P Unit := fun inp =>
  if s.toList.isPrefixOf inp then some ((), inp.drop s.toList.length) else none

/-- One step of the whitespace/comment rule `_`: fuelled by input length since
each step consumes at least one character. -/
def skipWsF : ℕ → List Char → List Char
  | 0, inp => inp
  | _ + 1, [] => []
  | fuel + 1, c :: rest =>
    if c = ' ' ∨ c = '\t' ∨ c = '\n' ∨ c = '\r' then skipWsF fuel rest
    else if c = '/' ∧ rest.head? = some '/' then
      skipWsF fuel ((rest.drop 1).dropWhile (fun d => d ≠ '\n'))
    else c :: rest

/-- The `_` rule: greedily skip `[ \t\n\r]` characters and `// ...` comments. -/
def skipWs (inp : List Char) : List Char := skipWsF (inp.length + 1) inp

/-- The `_` rule as a parser (never fails). -/
def wsP : P Unit := fun inp => some ((), skipWs inp)

/-- Greedy PEG repetition with explicit fuel. -/
def manyF {α : Type} (fuel : ℕ) (p : P α) : P (List α) := fun inp =>
  match fuel with
  | 0 => some ([], inp)
  | n + 1 =>
    match p inp with
    | none => some ([], inp)
    | some (a, rest) =>
      match manyF n p rest with
      | some (as, rest2) => some (a :: as, rest2)
      | none => none

/-- PEG `*`: zero or more, greedy (every grammar rule under `*` or `+`
consumes at least one character on success, so `length + 1` fuel is never
exhausted). -/
def pMany {α : Type} (p : P α) : P (List α) := fun inp =>
  manyF (inp.length + 1) p inp

/-- PEG `+`: one or more, greedy — one match of `p` followed by `p*`. -/
def pMany1 {α : Type} (p : P α) : P (List α) :=
  pBind p (fun a => pBind (pMany p) (fun as => pPure (a :: as)))

/-- Value of a digit string, as `parseInt` / `parseFloat` read it. -/
def digitsVal (ds : List Char) : ℕ :=
  ds.foldl (fun a c => a * 10 + (c.toNat - 48)) 0

/-- `StringLiteral`: `'"' [^"]* '"'`, yielding the joined characters. -/
def pStringLit : P String := fun inp =>
  match inp with
  | '"' :: rest =>
    match rest.dropWhile (fun c => c ≠ '"') with
    | '"' :: rest2 => some (String.mk (rest.takeWhile (fun c => c ≠ '"')), rest2)
    | _ => none
  | _ => none

/-- `Number`: `$("-"? [0-9]+ ("." [0-9]+)?)` passed to `parseFloat`, modelled
as the exact rational value of the matched literal.  The optional fraction
group fails as a whole (consuming nothing) when no digit follows the dot. -/
def pNumber : P ℚ := fun inp =>
  let neg : Bool := inp.head? = some '-'
  let inp1 := if inp.head? = some '-' then inp.tail else inp
  let ds := inp1.takeWhile Char.isDigit
  if ds.isEmpty then none
  else
    let inp2 := inp1.drop ds.length
    let ip : ℚ := (digitsVal ds : ℕ)
    let fs := inp2.tail.takeWhile Char.isDigit
    if inp2.head? = some '.' ∧ ¬ fs.isEmpty then
      some ((if neg then -(ip + (digitsVal fs : ℕ) / (10 : ℚ) ^ fs.length)
             else ip + (digitsVal fs : ℕ) / (10 : ℚ) ^ fs.length),
        inp2.tail.drop fs.length)
    else some ((if neg then -ip else ip), inp2)

/-- `Integer`: `[0-9]+` passed to `parseInt` — no sign, no fraction. -/
def pInteger : P ℕ := fun inp =>
  let ds := inp.takeWhile Char.isDigit
  if ds.isEmpty then none else some (digitsVal ds, inp.drop ds.length)

/-- `DurationLiteral`: a `Number` immediately followed by the suffix `s`. -/
def pDurationLiteral : P ℚ := do
  let v ← pNumber
  pLit "s"
  pure v

/-- `IdProperty = "id" _ ":" _ val:StringLiteral`. -/
def pIdProperty : P String := do
  pLit "id"; wsP; pLit ":"; wsP
  pStringLit

/-- `AtProperty = "at" _ ":" _ "(" _ x:Number _ "," _ y:Number _ ")"`. -/
def pAtProperty : P Pos := do
  pLit "at"; wsP; pLit ":"; wsP; pLit "("; wsP
  let x ← pNumber
  wsP; pLit ","; wsP
  let y ← pNumber
  wsP; pLit ")"
  pure { x := x, y := y }

/-- `RadiusProperty = "radius" _ ":" _ val:Number`. -/
def pRadiusProperty : P ℚ := do
  pLit "radius"; wsP; pLit ":"; wsP
  pNumber

/-- `DurationProperty = "duration" _ ":" _ val:DurationLiteral`. -/
def pDurationProperty : P ℚ := do
  pLit "duration"; wsP; pLit ":"; wsP
  pDurationLiteral

/-- `TextElement`: `"text" _ "(" _ content _ "," _ id _ "," _ at _ ")"`. -/
def pTextElement : P VisualElement := do
  pLit "text"; wsP; pLit "("; wsP
  let content ← pStringLit
  wsP; pLit ","; wsP
  let id ← pIdProperty
  wsP; pLit ","; wsP
  let at_ ← pAtProperty
  wsP; pLit ")"
  pure { type := ElementType.text, id := id, content := some content,
         radius := none, at_ := at_ }

/-- `CircleElement`: `"circle" _ "(" _ id _ "," _ at _ "," _ radius _ ")"`. -/
def pCircleElement : P VisualElement := do
  pLit "circle"; wsP; pLit "("; wsP
  let id ← pIdProperty
  wsP; pLit ","; wsP
  let at_ ← pAtProperty
  wsP; pLit ","; wsP
  let radius ← pRadiusProperty
  wsP; pLit ")"
  pure { type := ElementType.circle, id := id, content := none,
         radius := some radius, at_ := at_ }

/-- `VisualElement = _ element:(TextElement / CircleElement) _`. -/
def pVisualElement : P VisualElement := do
  wsP
  let e ← pOr pTextElement pCircleElement
  wsP
  pure e

/-- `FadeCommand`: `"fade" _ "(" _ target _ "," _ ("in"/"out") _ "," _
duration:DurationProperty _ ")"`. -/
def pFadeCommand : P FadeCommand := do
  pLit "fade"; wsP; pLit "("; wsP
  let target ← pStringLit
  wsP; pLit ","; wsP
  let direction ← pOr (do pLit "in"; pure FadeDirection.fadeIn)
    (do pLit "out"; pure FadeDirection.fadeOut)
  wsP; pLit ","; wsP
  let duration ← pDurationProperty
  wsP; pLit ")"
  pure { target := target, direction := direction, duration := duration }

/-- `AnimationCommand = _ cmd:FadeCommand _`. -/
def pAnimationCommand : P FadeCommand := do
  wsP
  let cmd ← pFadeCommand
  wsP
  pure cmd

/-- `TimelineEvent`: `_ "at" _ "(" _ time:DurationLiteral _ ")" _ "{" _
animations:AnimationCommand* _ "}"`. -/
def pTimelineEvent : P TimelineEvent := do
  wsP; pLit "at"; wsP; pLit "("; wsP
  let time ← pDurationLiteral
  wsP; pLit ")"; wsP; pLit "\x7b"; wsP
  let animations ← pMany pAnimationCommand
  wsP; pLit "\x7d"
  pure { time := time, animations := animations }

/-- A scene property fragment, before the merge (`Duration / Narration /
VisualsBlock / TimelineBlock`). -/
inductive SceneProp where
  | dur : ℚ → SceneProp
  | narr : String → SceneProp
  | vis : List VisualElement → SceneProp
  | tl : List TimelineEvent → SceneProp
deriving DecidableEq, Repr

/-- `Duration = "duration" _ ":" _ d:DurationLiteral`. -/
def pDuration : P SceneProp := do
  pLit "duration"; wsP; pLit ":"; wsP
  let d ← pDurationLiteral
  pure (SceneProp.dur d)

/-- `Narration = "narration" _ ":" _ text:StringLiteral`. -/
def pNarration : P SceneProp := do
  pLit "narration"; wsP; pLit ":"; wsP
  let text ← pStringLit
  pure (SceneProp.narr text)

/-- `VisualsBlock = "visuals" _ "{" _ elements:VisualElement* _ "}"`. -/
def pVisualsBlock : P SceneProp := do
  pLit "visuals"; wsP; pLit "\x7b"; wsP
  let elements ← pMany pVisualElement
  wsP; pLit "\x7d"
  pure (SceneProp.vis elements)

/-- `TimelineBlock = "timeline" _ "{" _ events:TimelineEvent* _ "}"`. -/
def pTimelineBlock : P SceneProp := do
  pLit "timeline"; wsP; pLit "\x7b"; wsP
  let events ← pMany pTimelineEvent
  wsP; pLit "\x7d"
  pure (SceneProp.tl events)

/-- `SceneProperties = prop:(Duration / Narration / VisualsBlock /
TimelineBlock) _`. -/
def pSceneProperties : P SceneProp := do
  let prop ← pOr pDuration (pOr pNarration (pOr pVisualsBlock pTimelineBlock))
  wsP
  pure prop

/-- The scene object a successful `SceneBlock` parse produces.  Unlike the
`Scene` interface declared in src/parser/parser.d.ts, every property other
than the title may be absent, because the grammar only requires *some*
non-empty property list: an absent key of the merged JS object is `none`. -/
structure ParsedScene where
  title : String
  duration : Option ℚ
  narration : Option String
  visuals : Option (List VisualElement)
  timeline : Option (List TimelineEvent)
deriving DecidableEq, Repr

/-- One step of `props.reduce((acc, prop) => ({ ...acc, ...prop }), {})`:
an object spread writes the fragment's single key over the accumulator. -/
def applyProp (s : ParsedScene) : SceneProp → ParsedScene
  | SceneProp.dur d => { s with duration := some d }
  | SceneProp.narr t => { s with narration := some t }
  | SceneProp.vis es => { s with visuals := some es }
  | SceneProp.tl evs => { s with timeline := some evs }

/-- The `SceneBlock` action: merge the property fragments left to right and
attach the title (`{ type: "Scene", title, ...scene }`). -/
def mkScene (title : String) (props : List SceneProp) : ParsedScene :=
  props.foldl applyProp
    { title := title, duration := none, narration := none,
      visuals := none, timeline := none }

/-- `SceneBlock = "scene" _ title:StringLiteral _ "{" _ props:SceneProperties+
_ "}"` with the reduce-merge action. -/
def pSceneBlock : P ParsedScene := do
  pLit "scene"; wsP
  let title ← pStringLit
  wsP; pLit "\x7b"; wsP
  let props ← pMany1 pSceneProperties
  wsP; pLit "\x7d"
  pure (mkScene title props)

/-- The `dimensions: (w, h)` pair of the video block. -/
structure Dimensions where
  width : ℕ
  height : ℕ
deriving DecidableEq, Repr

/-- The video object (`{ type: "Video", dimensions }`). -/
structure Video where
  dimensions : Dimensions
deriving DecidableEq, Repr

/-- `Dimensions = "dimensions" _ ":" _ "(" _ w:Integer _ "," _ h:Integer _
")"`. -/
def pDimensions : P Dimensions := do
  pLit "dimensions"; wsP; pLit ":"; wsP; pLit "("; wsP
  let w ← pInteger
  wsP; pLit ","; wsP
  let h ← pInteger
  wsP; pLit ")"
  pure { width := w, height := h }

/-- `VideoProperties = dimensions:Dimensions`. -/
def pVideoProperties : P Video := do
  let dims ← pDimensions
  pure { dimensions := dims }

/-- `VideoBlock = "video" _ "{" _ props:VideoProperties _ "}"`. -/
def pVideoBlock : P Video := do
  pLit "video"; wsP; pLit "\x7b"; wsP
  let props ← pVideoProperties
  wsP; pLit "\x7d"
  pure props

/-- The parsed program: exactly one video object and the scene list. -/
structure Program where
  video : Video
  scenes : List ParsedScene
deriving DecidableEq, Repr

/-- `Program = _ video:VideoBlock _ scenes:SceneBlock+ _`. -/
def pProgram : P Program := do
  wsP
  let video ← pVideoBlock
  wsP
  let scenes ← pMany1 pSceneBlock
  wsP
  pure { video := video, scenes := scenes }

/-- The exported `parse` entry point: Peggy runs the start rule and fails
unless it consumed the entire input. -/
def parse (s : String) : Option Program :=
  match pProgram s.toList with
  | some (prog, []) => some prog
  | _ => none

/-!
## Evaluator lemmas

`fadeUpdate` is an overwrite guarded by `fadeMatches`; applying a command list
to a frame only ever rewrites the opacity of the first element carrying the
targeted id, and the final opacity is the value of the last matching command.
-/

theorem fadeUpdate_eq (timeS s : ℚ) (anim : FadeCommand) (el : ElementState) :
    fadeUpdate timeS s anim el =
      if fadeMatches timeS s anim then
        { el with opacity := fadeValue timeS s anim }
      else el := by
  unfold fadeUpdate fadeMatches fadeValue
  by_cases hA : anim.direction = FadeDirection.fadeOut ∧ anim.duration = 0
  · simp only [if_pos hA]
    by_cases hB : s ≤ timeS <;> simp [hB]
  · simp only [if_neg hA]
    by_cases hC : s ≤ timeS ∧ timeS ≤ s + anim.duration
    · by_cases hI : anim.direction = FadeDirection.fadeIn <;> simp [hC, hI]
    · by_cases hD : s + anim.duration < timeS <;> simp [hC, hD]

theorem fadeUpdate_fields (timeS s : ℚ) (anim : FadeCommand)
    (el : ElementState) :
    fadeUpdate timeS s anim el =
      { el with opacity := (fadeUpdate timeS s anim el).opacity } := by
  cases el
  rw [fadeUpdate_eq]
  split <;> rfl

theorem fadeUpdate_id (timeS s : ℚ) (anim : FadeCommand) (el : ElementState) :
    (fadeUpdate timeS s anim el).id = el.id := by
  rw [fadeUpdate_fields]

theorem runCmds_nil (timeS : ℚ) (el : ElementState) :
    runCmds timeS [] el = el := rfl

theorem runCmds_cons (timeS : ℚ) (c : ℚ × FadeCommand)
    (cs : List (ℚ × FadeCommand)) (el : ElementState) :
    runCmds timeS (c :: cs) el = runCmds timeS cs (fadeUpdate timeS c.1 c.2 el) :=
  rfl

theorem runCmds_fields (timeS : ℚ) (cmds : List (ℚ × FadeCommand))
    (el : ElementState) :
    runCmds timeS cmds el =
      { el with opacity := (runCmds timeS cmds el).opacity } := by
  induction cmds generalizing el with
  | nil => cases el; rfl
  | cons c cs ih =>
    rw [runCmds_cons, ih, fadeUpdate_fields]

/-- Last-write-wins: folding a command list over an element leaves the
opacity of the last command whose condition matches, or the incoming opacity
when none matches. -/
theorem runCmds_opacity (timeS : ℚ) (cmds : List (ℚ × FadeCommand))
    (el : ElementState) :
    (runCmds timeS cmds el).opacity =
      match (cmds.filter (fun c => fadeMatches timeS c.1 c.2)).getLast? with
      | some c => fadeValue timeS c.1 c.2
      | none => el.opacity := by
  induction cmds generalizing el with
  | nil => rfl
  | cons c cs ih =>
    rw [runCmds_cons, ih]
    by_cases hc : fadeMatches timeS c.1 c.2
    · have hfil : List.filter (fun d => fadeMatches timeS d.1 d.2) (c :: cs) =
          c :: List.filter (fun d => fadeMatches timeS d.1 d.2) cs := by
        simp [List.filter_cons, hc]
      rw [hfil]
      cases hfe : List.filter (fun d => fadeMatches timeS d.1 d.2) cs with
      | nil => simp [fadeUpdate_eq, hc]
      | cons x xs =>
        rw [List.getLast?_cons_cons]
        cases hgl : (x :: xs).getLast? with
        | none => simp at hgl
        | some y => rfl
    · have hfil : List.filter (fun d => fadeMatches timeS d.1 d.2) (c :: cs) =
          List.filter (fun d => fadeMatches timeS d.1 d.2) cs := by
        simp [List.filter_cons, hc]
      rw [hfil]
      cases hgl : (List.filter (fun d => fadeMatches timeS d.1 d.2) cs).getLast? with
      | none => simp [fadeUpdate_eq, hc]
      | some y => rfl

theorem applyAnim_map_id (timeS s : ℚ) (anim : FadeCommand)
    (fs : List ElementState) :
    (applyAnim timeS s anim fs).map ElementState.id = fs.map ElementState.id := by
  induction fs with
  | nil => rfl
  | cons f rest ih =>
    unfold applyAnim
    by_cases h : f.id = anim.target
    · simp [h, fadeUpdate_id]
    · simp [h, ih]

theorem applyAnim_length (timeS s : ℚ) (anim : FadeCommand)
    (fs : List ElementState) :
    (applyAnim timeS s anim fs).length = fs.length := by
  have h := applyAnim_map_id timeS s anim fs
  have h1 := congrArg List.length h
  simpa using h1

/-- `find`-and-mutate, pointwise: position `i` is rewritten exactly when it
holds the first element whose id is the command's target. -/
theorem applyAnim_getElem (timeS s : ℚ) (anim : FadeCommand)
    (fs : List ElementState) (i : ℕ) :
    (applyAnim timeS s anim fs)[i]? =
      (fs[i]?).map (fun el =>
        if el.id = anim.target ∧ (∀ e ∈ fs.take i, e.id ≠ anim.target) then
          fadeUpdate timeS s anim el
        else el) := by
  induction fs generalizing i with
  | nil => simp [applyAnim]
  | cons f rest ih =>
    unfold applyAnim
    by_cases h : f.id = anim.target
    · rw [if_pos h]
      cases i with
      | zero => simp [h]
      | succ j =>
        simp only [List.getElem?_cons_succ, List.take_succ_cons]
        cases hj : rest[j]? with
        | none => rfl
        | some el => simp [h]
    · rw [if_neg h]
      cases i with
      | zero => simp [h]
      | succ j =>
        simp only [List.getElem?_cons_succ, List.take_succ_cons, ih j]
        have hfg : (fun el : ElementState =>
            if el.id = anim.target ∧ (∀ e ∈ rest.take j, e.id ≠ anim.target)
            then fadeUpdate timeS s anim el else el) =
            (fun el : ElementState =>
            if el.id = anim.target ∧ (∀ e ∈ f :: rest.take j, e.id ≠ anim.target)
            then fadeUpdate timeS s anim el else el) := by
          funext el
          refine if_congr ?_ rfl rfl
          constructor
          · rintro ⟨h1, h2⟩
            refine ⟨h1, ?_⟩
            intro e he
            rcases List.mem_cons.mp he with rfl | he2
            · exact h
            · exact h2 e he2
          · rintro ⟨h1, h2⟩
            exact ⟨h1, fun e he => h2 e (List.mem_cons_of_mem f he)⟩
        rw [hfg]

theorem foldAnims_nil (timeS : ℚ) (fs : List ElementState) :
    foldAnims timeS [] fs = fs := rfl

theorem foldAnims_cons (timeS : ℚ) (c : ℚ × FadeCommand)
    (cmds : List (ℚ × FadeCommand)) (fs : List ElementState) :
    foldAnims timeS (c :: cmds) fs =
      foldAnims timeS cmds (applyAnim timeS c.1 c.2 fs) := rfl

theorem foldAnims_append (timeS : ℚ) (l1 l2 : List (ℚ × FadeCommand))
    (fs : List ElementState) :
    foldAnims timeS (l1 ++ l2) fs = foldAnims timeS l2 (foldAnims timeS l1 fs) :=
  List.foldl_append _ _ _ _

theorem foldAnims_map_id (timeS : ℚ) (cmds : List (ℚ × FadeCommand))
    (fs : List ElementState) :
    (foldAnims timeS cmds fs).map ElementState.id = fs.map ElementState.id := by
  induction cmds generalizing fs with
  | nil => rfl
  | cons c cs ih => rw [foldAnims_cons, ih, applyAnim_map_id]

/-- Master pointwise description of the command fold: position `i` is the
result of running exactly the commands that target its id, provided no
earlier position carries the same id; a shadowed duplicate is never touched. -/
theorem foldAnims_getElem (timeS : ℚ) (cmds : List (ℚ × FadeCommand))
    (fs : List ElementState) (i : ℕ) :
    (foldAnims timeS cmds fs)[i]? =
      (fs[i]?).map (fun el =>
        if ∀ x ∈ (fs.map ElementState.id).take i, x ≠ el.id then
          runCmds timeS (cmdsFor el.id cmds) el
        else el) := by
  induction cmds generalizing fs with
  | nil =>
    rw [foldAnims_nil]
    cases hj : fs[i]? with
    | none => rfl
    | some el =>
      rw [Option.map_some']
      congr 1
      by_cases hC : ∀ x ∈ (fs.map ElementState.id).take i, x ≠ el.id
      · rw [if_pos hC]; rfl
      · rw [if_neg hC]
  | cons c cs ih =>
    rw [foldAnims_cons, ih, applyAnim_map_id, applyAnim_getElem, Option.map_map]
    cases hj : fs[i]? with
    | none => rfl
    | some el =>
      rw [Option.map_some', Option.map_some', Option.some_inj]
      simp only [Function.comp]
      by_cases ht : el.id = c.2.target ∧ (∀ e ∈ fs.take i, e.id ≠ c.2.target)
      · rw [if_pos ht, fadeUpdate_id]
        by_cases hC : ∀ x ∈ (fs.map ElementState.id).take i, x ≠ el.id
        · rw [if_pos hC, if_pos hC]
          have hcf : cmdsFor el.id (c :: cs) = c :: cmdsFor el.id cs := by
            unfold cmdsFor
            simp [List.filter_cons, ht.1.symm]
          rw [hcf, runCmds_cons]
        · exfalso
          push_neg at hC
          obtain ⟨x, hx, hxe⟩ := hC
          rw [← List.map_take] at hx
          obtain ⟨e, he, rfl⟩ := List.mem_map.mp hx
          exact ht.2 e he (hxe.trans ht.1)
      · rw [if_neg ht]
        by_cases hC : ∀ x ∈ (fs.map ElementState.id).take i, x ≠ el.id
        · rw [if_pos hC, if_pos hC]
          by_cases hA : el.id = c.2.target
          · exfalso
            apply ht
            refine ⟨hA, ?_⟩
            intro e he hid
            have hmem : e.id ∈ (fs.map ElementState.id).take i := by
              rw [← List.map_take]
              exact List.mem_map_of_mem _ he
            exact hC _ hmem (hid.trans hA.symm)
          · have hcf : cmdsFor el.id (c :: cs) = cmdsFor el.id cs := by
              unfold cmdsFor
              have hne : ¬ (c.2.target = el.id) := fun hh => hA hh.symm
              simp [List.filter_cons, hne]
            rw [hcf]
        · rw [if_neg hC, if_neg hC]

/-- The evaluator's nested event/command loops equal one fold over the
flattened, declaration-ordered command list. -/
theorem calculateFrameState_eq_foldAnims (scene : Scene) (timeMs : ℚ) :
    calculateFrameState scene timeMs =
      foldAnims (timeMs / 1000) (sceneCmds scene)
        (scene.visuals.map initState) := by
  unfold calculateFrameState sceneCmds
  generalize scene.visuals.map initState = fs
  induction scene.timeline generalizing fs with
  | nil => rfl
  | cons ev tl ih =>
    rw [List.foldl_cons, List.flatMap_cons, foldAnims_append, ih]
    congr 1
    rw [foldAnims]
    rw [List.foldl_map]

/-- Full pointwise description of `calculateFrameState`: the `i`-th output
state comes from the `i`-th declared visual, rewritten by exactly the
commands that target its id (when no earlier visual shares the id). -/
theorem calculateFrameState_getElem (scene : Scene) (timeMs : ℚ) (i : ℕ)
    (el : VisualElement) (hel : scene.visuals[i]? = some el) :
    (calculateFrameState scene timeMs)[i]? =
      some (if ∀ x ∈ (scene.visuals.map VisualElement.id).take i, x ≠ el.id
        then runCmds (timeMs / 1000) (cmdsFor el.id (sceneCmds scene))
          (initState el)
        else initState el) := by
  rw [calculateFrameState_eq_foldAnims, foldAnims_getElem,
    List.getElem?_map, hel, Option.map_some', Option.map_some',
    Option.some_inj]
  have hids : (scene.visuals.map initState).map ElementState.id =
      scene.visuals.map VisualElement.id := by
    rw [List.map_map]; rfl
  rw [hids]
  rfl

theorem applyAnim_not_mem (timeS s : ℚ) (anim : FadeCommand)
    (fs : List ElementState)
    (h : anim.target ∉ fs.map ElementState.id) :
    applyAnim timeS s anim fs = fs := by
  induction fs with
  | nil => rfl
  | cons f rest ih =>
    unfold applyAnim
    rw [List.map_cons] at h
    have h1 : ¬ f.id = anim.target := fun hh => h (hh ▸ List.mem_cons_self _ _)
    rw [if_neg h1, ih (fun hh => h (List.mem_cons_of_mem _ hh))]

theorem getLast_filter_of_getLast {α : Type} (l : List α) (p : α → Bool)
    (a : α) (h : l.getLast? = some a) (hp : p a = true) :
    (l.filter p).getLast? = some a := by
  induction l using List.reverseRecOn with
  | nil => simp at h
  | append_singleton l2 b ih =>
    rw [List.getLast?_concat] at h
    obtain rfl : b = a := Option.some.inj h
    rw [List.filter_append]
    simp [hp, List.getLast?_concat]

theorem foldAnims_middle_noop (timeS : ℚ) (L1 L2 : List (ℚ × FadeCommand))
    (c : ℚ × FadeCommand) (fs : List ElementState)
    (h : c.2.target ∉ fs.map ElementState.id) :
    foldAnims timeS (L1 ++ c :: L2) fs = foldAnims timeS (L1 ++ L2) fs := by
  rw [foldAnims_append, foldAnims_append, foldAnims_cons,
    applyAnim_not_mem _ _ _ _ (by rw [foldAnims_map_id]; exact h)]

/-- Every opacity a fade command can write is a rational in `[0, 1]`, except
for a `fadeIn` of duration `0` sampled exactly at its start, which writes
`0 / 0 = NaN`. -/
theorem fadeValue_unit_or_nan (t s : ℚ) (anim : FadeCommand) :
    (∃ q : ℚ, fadeValue t s anim = JsNum.num q ∧ 0 ≤ q ∧ q ≤ 1) ∨
      fadeValue t s anim = JsNum.nan := by
  unfold fadeValue
  by_cases hsp : anim.direction = FadeDirection.fadeOut ∧ anim.duration = 0
  · rw [if_pos hsp]
    exact Or.inl ⟨0, rfl, le_refl 0, by norm_num⟩
  · rw [if_neg hsp]
    by_cases hw : s ≤ t ∧ t ≤ s + anim.duration
    · rw [if_pos hw]
      by_cases hd : anim.duration = 0
      · have hdirIn : anim.direction = FadeDirection.fadeIn := by
          cases hdir : anim.direction with
          | fadeIn => rfl
          | fadeOut => exact absurd ⟨hdir, hd⟩ hsp
        rw [if_pos hdirIn]
        have ht : t = s := by
          have h2 := hw.2
          rw [hd, add_zero] at h2
          exact le_antisymm h2 hw.1
        right
        unfold jsDivQ
        rw [if_pos hd, if_pos (by rw [ht, sub_self])]
      · have hdnn : 0 ≤ anim.duration := by
          have h1 : 0 ≤ t - s := sub_nonneg.mpr hw.1
          have h2 : t - s ≤ anim.duration := by linarith [hw.2]
          linarith
        have hdpos : 0 < anim.duration := lt_of_le_of_ne hdnn (Ne.symm hd)
        have hq : 0 ≤ (t - s) / anim.duration ∧ (t - s) / anim.duration ≤ 1 := by
          constructor
          · exact div_nonneg (sub_nonneg.mpr hw.1) (le_of_lt hdpos)
          · rw [div_le_one hdpos]
            linarith [hw.2]
        have hdivq : jsDivQ (t - s) anim.duration =
            JsNum.num ((t - s) / anim.duration) := by
          unfold jsDivQ
          rw [if_neg hd]
        left
        split
        · exact ⟨(t - s) / anim.duration, by rw [hdivq], hq.1, hq.2⟩
        · refine ⟨1 - (t - s) / anim.duration, ?_, by linarith [hq.2], by linarith [hq.1]⟩
          rw [hdivq]
          rfl
    · rw [if_neg hw]
      left
      split
      · exact ⟨1, rfl, by norm_num, le_refl 1⟩
      · exact ⟨0, rfl, le_refl 0, by norm_num⟩

/-!
## Claim theorems
-/

/-- The one-circle element used by the concrete evaluation examples. -/
def elX : VisualElement :=
  { type := ElementType.circle, id := "x", content := none, radius := some 1,
    at_ := { x := 0, y := 0 } }

/-- The spec's declaration-order example: events at `2s` then `1s`, declared
in that order, both fading element `"x"`. -/
def precScene : Scene :=
  { title := "precedence", duration := 5, narration := none,
    visuals := [elX],
    timeline :=
      [ { time := 2, animations :=
            [{ target := "x", direction := FadeDirection.fadeOut, duration := 1 }] },
        { time := 1, animations :=
            [{ target := "x", direction := FadeDirection.fadeIn, duration := 1 }] } ] }

/-- C2: the evaluator iterates timeline events in declaration order, each
matching command overwrites the opacity computed so far, and hence the final
opacity of the (first-declared) element with a given id is the value written
by the last-declared command targeting it whose condition matches at sample
time `t` — or the baseline `1` when no such command matches. -/
theorem declaration_order_precedence (scene : Scene) (t : ℚ) (i : ℕ)
    (el : VisualElement) (hel : scene.visuals[i]? = some el)
    (hfirst : ∀ x ∈ (scene.visuals.map VisualElement.id).take i, x ≠ el.id) :
    ∃ st : ElementState,
      (calculateFrameState scene (1000 * t))[i]? = some st ∧
      st.opacity =
        match ((cmdsFor el.id (sceneCmds scene)).filter
            (fun c => fadeMatches t c.1 c.2)).getLast? with
        | some c => fadeValue t c.1 c.2
        | none => JsNum.num 1 := by
  have hdiv : (1000 : ℚ) * t / 1000 = t := mul_div_cancel_left₀ t (by norm_num)
  refine ⟨_, calculateFrameState_getElem scene (1000 * t) i el hel, ?_⟩
  rw [if_pos hfirst, hdiv, runCmds_opacity]
  cases ((cmdsFor el.id (sceneCmds scene)).filter
      (fun c => fadeMatches t c.1 c.2)).getLast? <;> rfl

/-- Witness for C2: in `precScene` (events declared at `2s` then `1s`, both
fading `"x"`), sampling at `t = 1.5s` applies the second-declared event — the
chronologically earlier one — giving opacity `0.5`. -/
theorem declaration_order_precedence_witness :
    ∃ st : ElementState,
      (calculateFrameState precScene (1000 * (3 / 2)))[0]? = some st ∧
      st.opacity = JsNum.num (1 / 2) := by
  obtain ⟨st, h1, h2⟩ :=
    declaration_order_precedence precScene (3 / 2) 0 elX rfl (by simp)
  refine ⟨st, h1, ?_⟩
  rw [h2]
  norm_num [precScene, elX, sceneCmds, cmdsFor, fadeMatches, fadeValue, jsDivQ]

/-- C3: for a fade of positive duration, the command leaves the target
untouched before `start`, writes the linear interpolation
`(t − start) / dur` (or its complement for `out`) inside the window, writes
the terminal value after the window, and therefore a scene whose
last-declared command targeting an element is such a fade evaluates to the
terminal opacity at any `t ≥ start + dur`. -/
theorem fade_interpolation_clamp (t start dur : ℚ) (anim : FadeCommand)
    (hdur : anim.duration = dur) (hpos : 0 < dur) :
    (∀ el : ElementState, start ≤ t → t ≤ start + dur →
      (fadeUpdate t start anim el).opacity =
        (if anim.direction = FadeDirection.fadeIn
         then JsNum.num ((t - start) / dur)
         else JsNum.num (1 - (t - start) / dur))) ∧
    (∀ el : ElementState, start + dur < t →
      (fadeUpdate t start anim el).opacity =
        (if anim.direction = FadeDirection.fadeIn
         then JsNum.num 1 else JsNum.num 0)) ∧
    (∀ el : ElementState, t < start → fadeUpdate t start anim el = el) ∧
    (∀ (scene : Scene) (i : ℕ) (vel : VisualElement),
      scene.visuals[i]? = some vel →
      (∀ x ∈ (scene.visuals.map VisualElement.id).take i, x ≠ vel.id) →
      (cmdsFor vel.id (sceneCmds scene)).getLast? = some (start, anim) →
      start + dur ≤ t →
      ∃ st : ElementState,
        (calculateFrameState scene (1000 * t))[i]? = some st ∧
        st.opacity = (if anim.direction = FadeDirection.fadeIn
          then JsNum.num 1 else JsNum.num 0)) := by
  have hd0 : anim.duration ≠ 0 := by rw [hdur]; exact ne_of_gt hpos
  have hsp : ¬ (anim.direction = FadeDirection.fadeOut ∧ anim.duration = 0) :=
    fun h => hd0 h.2
  have hvalwin : ∀ h1 : start ≤ t, t ≤ start + dur →
      fadeValue t start anim =
        (if anim.direction = FadeDirection.fadeIn
         then JsNum.num ((t - start) / dur)
         else JsNum.num (1 - (t - start) / dur)) := by
    intro h1 h2
    unfold fadeValue
    rw [if_neg hsp, if_pos ⟨h1, by rw [hdur]; exact h2⟩, hdur]
    have hdq : jsDivQ (t - start) dur = JsNum.num ((t - start) / dur) := by
      unfold jsDivQ
      rw [if_neg (ne_of_gt hpos)]
    split <;> rw [hdq] <;> rfl
  have hvalafter : start + dur < t →
      fadeValue t start anim =
        (if anim.direction = FadeDirection.fadeIn
         then JsNum.num 1 else JsNum.num 0) := by
    intro hlt
    unfold fadeValue
    rw [if_neg hsp, if_neg (by rw [hdur]; rintro ⟨-, h2⟩; linarith)]
  have hmwin : ∀ h1 : start ≤ t, t ≤ start + dur →
      fadeMatches t start anim = true := by
    intro h1 h2
    unfold fadeMatches
    rw [if_neg hsp]
    simp only [decide_eq_true_eq]
    exact Or.inl ⟨h1, by rw [hdur]; exact h2⟩
  have hmafter : start + dur < t → fadeMatches t start anim = true := by
    intro hlt
    unfold fadeMatches
    rw [if_neg hsp]
    simp only [decide_eq_true_eq]
    exact Or.inr (by rw [hdur]; exact hlt)
  refine ⟨?_, ?_, ?_, ?_⟩
  · intro el h1 h2
    rw [fadeUpdate_eq, if_pos (hmwin h1 h2), hvalwin h1 h2]
  · intro el hlt
    rw [fadeUpdate_eq, if_pos (hmafter hlt), hvalafter hlt]
  · intro el hlt
    rw [fadeUpdate_eq, if_neg]
    unfold fadeMatches
    rw [if_neg hsp]
    simp only [decide_eq_true_eq, not_or, not_and, not_lt]
    constructor
    · intro h1
      exact absurd h1 (not_le.mpr hlt)
    · rw [hdur]
      linarith
  · intro scene i vel hel hfirst hlast hle
    have hdiv : (1000 : ℚ) * t / 1000 = t := mul_div_cancel_left₀ t (by norm_num)
    refine ⟨_, calculateFrameState_getElem scene (1000 * t) i vel hel, ?_⟩
    rw [if_pos hfirst, hdiv, runCmds_opacity]
    have hmatch : fadeMatches t start anim = true := by
      rcases lt_or_eq_of_le hle with hlt | heq
      · exact hmafter hlt
      · exact hmwin (by linarith) (le_of_eq heq.symm)
    rw [getLast_filter_of_getLast _ _ _ hlast hmatch]
    show fadeValue t start anim = _
    rcases lt_or_eq_of_le hle with hlt | heq
    · rw [hvalafter hlt]
    · rw [hvalwin (by linarith) (le_of_eq heq.symm)]
      have hts : t - start = dur := by linarith
      rw [hts, div_self (ne_of_gt hpos)]
      split <;> norm_num

/-- A scene whose only command fades `"x"` in over `1s` starting at `0s`. -/
def fadeInScene : Scene :=
  { title := "clamp", duration := 5, narration := none, visuals := [elX],
    timeline :=
      [ { time := 0, animations :=
            [{ target := "x", direction := FadeDirection.fadeIn, duration := 1 }] } ] }

/-- Witness for C3: sampling `fadeInScene` at `t = 2 ≥ start + dur = 1`
yields the clamped terminal opacity `1`. -/
theorem fade_interpolation_clamp_witness :
    ∃ st : ElementState,
      (calculateFrameState fadeInScene (1000 * 2))[0]? = some st ∧
      st.opacity = JsNum.num 1 := by
  have h := (fade_interpolation_clamp 2 0 1
      { target := "x", direction := FadeDirection.fadeIn, duration := 1 }
      rfl (by norm_num)).2.2.2
  obtain ⟨st, h1, h2⟩ := h fadeInScene 0 elX rfl (by simp) rfl (by norm_num)
  exact ⟨st, h1, by rw [h2]; rfl⟩

/-- C4: a `fade(out, duration: 0s)` at event time `s` hides its target (sets
opacity `0`) at every sample time `t ≥ s`, leaves it unchanged at `t < s`,
never alters an element whose id differs from the target, and when declared
at time `0` with no later-declared command on the same target whose
condition matches at `t`, the target's opacity is `0` at every `t ≥ 0`. -/
theorem instant_hide (t s : ℚ) (anim : FadeCommand)
    (hdir : anim.direction = FadeDirection.fadeOut) (hdur : anim.duration = 0) :
    (∀ el : ElementState, s ≤ t →
      fadeUpdate t s anim el = { el with opacity := JsNum.num 0 }) ∧
    (∀ el : ElementState, t < s → fadeUpdate t s anim el = el) ∧
    (∀ (fs : List ElementState) (i : ℕ) (el : ElementState),
      fs[i]? = some el → el.id ≠ anim.target →
      (applyAnim t s anim fs)[i]? = some el) ∧
    (∀ (scene : Scene) (i : ℕ) (vel : VisualElement)
      (l1 l2 : List (ℚ × FadeCommand)),
      scene.visuals[i]? = some vel →
      (∀ x ∈ (scene.visuals.map VisualElement.id).take i, x ≠ vel.id) →
      s = 0 →
      cmdsFor vel.id (sceneCmds scene) = l1 ++ (s, anim) :: l2 →
      (∀ c ∈ l2, fadeMatches t c.1 c.2 = false) →
      0 ≤ t →
      ∃ st : ElementState,
        (calculateFrameState scene (1000 * t))[i]? = some st ∧
        st.opacity = JsNum.num 0) := by
  have hsp : anim.direction = FadeDirection.fadeOut ∧ anim.duration = 0 :=
    ⟨hdir, hdur⟩
  refine ⟨?_, ?_, ?_, ?_⟩
  · intro el hst
    unfold fadeUpdate
    rw [if_pos hsp, if_pos hst]
  · intro el hts
    unfold fadeUpdate
    rw [if_pos hsp, if_neg (not_le.mpr hts)]
  · intro fs i el hel hne
    rw [applyAnim_getElem, hel, Option.map_some']
    congr 1
    rw [if_neg]
    rintro ⟨h1, -⟩
    exact hne h1
  · intro scene i vel l1 l2 hel hfirst hs0 hsplit hlater ht0
    have hdiv : (1000 : ℚ) * t / 1000 = t := mul_div_cancel_left₀ t (by norm_num)
    refine ⟨_, calculateFrameState_getElem scene (1000 * t) i vel hel, ?_⟩
    rw [if_pos hfirst, hdiv, runCmds_opacity, hsplit]
    have hmatch : fadeMatches t s anim = true := by
      unfold fadeMatches
      rw [if_pos hsp, hs0]
      exact decide_eq_true ht0
    have hfl2 : l2.filter (fun c => fadeMatches t c.1 c.2) = [] :=
      List.filter_eq_nil_iff.mpr
        (fun c hc => by rw [hlater c hc]; exact Bool.false_ne_true)
    rw [List.filter_append, List.filter_cons]
    simp only [hmatch, if_pos, hfl2]
    rw [List.getLast?_concat]
    show fadeValue t s anim = JsNum.num 0
    unfold fadeValue
    rw [if_pos hsp]

/-- The spec's instant-hide scene: `fade("x", out, duration: 0s)` at `0s`. -/
def hideScene : Scene :=
  { title := "hide", duration := 5, narration := none, visuals := [elX],
    timeline :=
      [ { time := 0, animations :=
            [{ target := "x", direction := FadeDirection.fadeOut, duration := 0 }] } ] }

/-- Witness for C4: in `hideScene` the element `"x"` has opacity `0` at
`t = 3 ≥ 0`. -/
theorem instant_hide_witness :
    ∃ st : ElementState,
      (calculateFrameState hideScene (1000 * 3))[0]? = some st ∧
      st.opacity = JsNum.num 0 := by
  have h := (instant_hide 3 0
      { target := "x", direction := FadeDirection.fadeOut, duration := 0 }
      rfl rfl).2.2.2
  exact h hideScene 0 elX [] [] rfl (by simp) rfl rfl (by simp) (by norm_num)

/-- C8: the evaluator returns one state per declared visual element, in
declaration order — same length, and the `i`-th state copies the `i`-th
element's static fields with position equal to its declared anchor at every
sample time; its opacity is the baseline `1` whenever no declared fade
command targeting its id has a matching condition at `t`. -/
theorem frame_shape (scene : Scene) (t : ℚ) :
    (calculateFrameState scene (1000 * t)).length = scene.visuals.length ∧
    ∀ (i : ℕ) (el : VisualElement), scene.visuals[i]? = some el →
      ∃ st : ElementState,
        (calculateFrameState scene (1000 * t))[i]? = some st ∧
        st.id = el.id ∧ st.type = el.type ∧ st.content = el.content ∧
        st.radius = el.radius ∧ st.x = el.at_.x ∧ st.y = el.at_.y ∧
        ((∀ c ∈ sceneCmds scene, c.2.target = el.id →
            fadeMatches t c.1 c.2 = false) →
          st.opacity = JsNum.num 1) := by
  have hdiv : (1000 : ℚ) * t / 1000 = t := mul_div_cancel_left₀ t (by norm_num)
  constructor
  · have h1 := congrArg List.length
      (foldAnims_map_id (1000 * t / 1000) (sceneCmds scene)
        (scene.visuals.map initState))
    rw [calculateFrameState_eq_foldAnims]
    simpa using h1
  · intro i el hel
    refine ⟨_, calculateFrameState_getElem scene (1000 * t) i el hel, ?_⟩
    have hfields : ∀ st2 : ElementState,
        (if ∀ x ∈ (scene.visuals.map VisualElement.id).take i, x ≠ el.id
          then runCmds (1000 * t / 1000) (cmdsFor el.id (sceneCmds scene))
            (initState el)
          else initState el) = st2 →
        st2.id = el.id ∧ st2.type = el.type ∧ st2.content = el.content ∧
          st2.radius = el.radius ∧ st2.x = el.at_.x ∧ st2.y = el.at_.y := by
      intro st2 hst2
      rw [← hst2]
      by_cases hC : ∀ x ∈ (scene.visuals.map VisualElement.id).take i, x ≠ el.id
      · rw [if_pos hC, runCmds_fields]
        exact ⟨rfl, rfl, rfl, rfl, rfl, rfl⟩
      · rw [if_neg hC]
        exact ⟨rfl, rfl, rfl, rfl, rfl, rfl⟩
    obtain ⟨h1, h2, h3, h4, h5, h6⟩ := hfields _ rfl
    refine ⟨h1, h2, h3, h4, h5, h6, ?_⟩
    intro hnone
    have hfilter : (cmdsFor el.id (sceneCmds scene)).filter
        (fun c => fadeMatches t c.1 c.2) = [] := by
      refine List.filter_eq_nil_iff.mpr ?_
      intro c hc
      have hmem := List.mem_filter.mp hc
      have htgt : c.2.target = el.id := by
        have := hmem.2
        simpa using this
      rw [hnone c hmem.1 htgt]
      exact Bool.false_ne_true
    by_cases hC : ∀ x ∈ (scene.visuals.map VisualElement.id).take i, x ≠ el.id
    · rw [if_pos hC, hdiv, runCmds_opacity, hfilter]
      rfl
    · rw [if_neg hC]
      rfl

/-- Witness for C8 on `precScene` at `t = 1/2` (neither declared command's
window has begun): one state, static circle fields, baseline opacity `1`. -/
theorem frame_shape_witness :
    (calculateFrameState precScene (1000 * (1 / 2))).length = 1 ∧
    ∃ st : ElementState,
      (calculateFrameState precScene (1000 * (1 / 2)))[0]? = some st ∧
      st.id = "x" ∧ st.x = 0 ∧ st.y = 0 ∧ st.opacity = JsNum.num 1 := by
  obtain ⟨hlen, hpt⟩ := frame_shape precScene (1 / 2)
  refine ⟨hlen, ?_⟩
  obtain ⟨st, h1, h2, _, _, _, h5, h6, h7⟩ := hpt 0 elX rfl
  refine ⟨st, h1, h2, h5, h6, ?_⟩
  apply h7
  intro c hc htgt
  fin_cases hc <;> norm_num [fadeMatches]

/-- C5 (amended): the evaluator is total, and every opacity it outputs is
either a rational in `[0, 1]` or `NaN`; `NaN` arises exactly from the
`0 / 0` of a `fade(in, duration: 0s)` sampled at its start time, so the
claim's "interpolation division is well-defined for every command" fails. -/
theorem opacity_unit_or_nan (scene : Scene) (timeMs : ℚ) (st : ElementState)
    (hst : st ∈ calculateFrameState scene timeMs) :
    (∃ q : ℚ, st.opacity = JsNum.num q ∧ 0 ≤ q ∧ q ≤ 1) ∨
      st.opacity = JsNum.nan := by
  obtain ⟨i, hlt, hi⟩ := List.mem_iff_getElem.mp hst
  have hlen : (calculateFrameState scene timeMs).length =
      scene.visuals.length := by
    rw [calculateFrameState_eq_foldAnims]
    have h1 := congrArg List.length
      (foldAnims_map_id (timeMs / 1000) (sceneCmds scene)
        (scene.visuals.map initState))
    simpa using h1
  have hiv : i < scene.visuals.length := hlen ▸ hlt
  have hel : scene.visuals[i]? = some scene.visuals[i] :=
    List.getElem?_eq_getElem hiv
  have hchar := calculateFrameState_getElem scene timeMs i _ hel
  have hopt : (calculateFrameState scene timeMs)[i]? = some st := by
    rw [List.getElem?_eq_getElem hlt, hi]
  rw [hopt] at hchar
  have hst2 := Option.some.inj hchar
  by_cases hC : ∀ x ∈ (scene.visuals.map VisualElement.id).take i,
      x ≠ scene.visuals[i].id
  · rw [if_pos hC] at hst2
    rw [hst2, runCmds_opacity]
    cases hgl : ((cmdsFor scene.visuals[i].id (sceneCmds scene)).filter
        (fun c => fadeMatches (timeMs / 1000) c.1 c.2)).getLast? with
    | none => exact Or.inl ⟨1, rfl, by norm_num, le_refl 1⟩
    | some c => exact fadeValue_unit_or_nan (timeMs / 1000) c.1 c.2
  · rw [if_neg hC] at hst2
    rw [hst2]
    exact Or.inl ⟨1, rfl, by norm_num, le_refl 1⟩

/-- A scene with an empty timeline, for the C5 witness. -/
def plainScene : Scene :=
  { title := "p", duration := 1, narration := none, visuals := [elX],
    timeline := [] }

/-- Witness for C5 (amended) on `plainScene` at `t = 0`. -/
theorem opacity_unit_or_nan_witness :
    ∃ st : ElementState, st ∈ calculateFrameState plainScene 0 ∧
      ((∃ q : ℚ, st.opacity = JsNum.num q ∧ 0 ≤ q ∧ q ≤ 1) ∨
        st.opacity = JsNum.nan) := by
  have hmem : initState elX ∈ calculateFrameState plainScene 0 := by
    show initState elX ∈ [initState elX]
    exact List.mem_singleton.mpr rfl
  exact ⟨_, hmem, opacity_unit_or_nan plainScene 0 _ hmem⟩

/-- The scene exhibiting the `0 / 0` opacity: `fade("x", in, duration: 0s)`
at `0s`, sampled exactly at its start. -/
def nanScene : Scene :=
  { title := "nan", duration := 5, narration := none, visuals := [elX],
    timeline :=
      [ { time := 0, animations :=
            [{ target := "x", direction := FadeDirection.fadeIn, duration := 0 }] } ] }

/-- Counterexample to C5 as stated: at `t = 0` the evaluator's output for
`nanScene` carries opacity `NaN` — the interpolation `0 / 0` — which is not
`JsNum.num q` for any rational `q`, hence not in `[0, 1]`. -/
theorem opacity_unit_counterexample :
    ∃ st : ElementState, st ∈ calculateFrameState nanScene 0 ∧
      st.opacity = JsNum.nan ∧ ∀ q : ℚ, st.opacity ≠ JsNum.num q := by
  have hframe : calculateFrameState nanScene 0 =
      [{ id := "x", type := ElementType.circle, opacity := JsNum.nan,
         content := none, radius := some 1, x := 0, y := 0 }] := by
    norm_num [calculateFrameState, nanScene, elX, initState, applyAnim,
      fadeUpdate, jsDivQ]
    exact fun h => nomatch h
  refine ⟨_, by rw [hframe]; exact List.mem_singleton.mpr rfl, rfl, ?_⟩
  exact fun q h => JsNum.noConfusion h

/-- C6: a fade command whose target matches no declared visual id is a
silent no-op — evaluating the scene equals evaluating the same scene with
that command removed, at every sample time (and the evaluator, a total
function, never throws). -/
theorem dangling_target_noop (title : String) (dur : ℚ) (narr : Option String)
    (vis : List VisualElement) (pre post : List TimelineEvent) (evTime : ℚ)
    (a1 a2 : List FadeCommand) (cmd : FadeCommand) (timeMs : ℚ)
    (h : cmd.target ∉ vis.map VisualElement.id) :
    calculateFrameState
      { title := title, duration := dur, narration := narr, visuals := vis,
        timeline := pre ++ { time := evTime, animations := a1 ++ cmd :: a2 } :: post }
      timeMs =
    calculateFrameState
      { title := title, duration := dur, narration := narr, visuals := vis,
        timeline := pre ++ { time := evTime, animations := a1 ++ a2 } :: post }
      timeMs := by
  rw [calculateFrameState_eq_foldAnims, calculateFrameState_eq_foldAnims]
  have hids : (vis.map initState).map ElementState.id =
      vis.map VisualElement.id := by
    rw [List.map_map]; rfl
  have hnoop := foldAnims_middle_noop (timeMs / 1000)
    (pre.flatMap (fun ev => ev.animations.map (fun a => (ev.time, a))) ++
      a1.map (fun a => (evTime, a)))
    (a2.map (fun a => (evTime, a)) ++
      post.flatMap (fun ev => ev.animations.map (fun a => (ev.time, a))))
    (evTime, cmd) (vis.map initState) (by rw [hids]; exact h)
  simp only [sceneCmds, List.flatMap_append, List.flatMap_cons,
    List.map_append, List.map_cons, List.append_assoc, List.cons_append,
    List.nil_append] at hnoop ⊢
  exact hnoop

/-- Witness for C6: removing a `fade("missing_id", ...)` command — whose
target id is declared by no visual — does not change the evaluated frame. -/
theorem dangling_target_noop_witness :
    calculateFrameState
      { title := "w", duration := 5, narration := none, visuals := [elX],
        timeline :=
          [ { time := 0, animations :=
                [{ target := "missing_id", direction := FadeDirection.fadeIn,
                   duration := 1 }] } ] } 500 =
    calculateFrameState
      { title := "w", duration := 5, narration := none, visuals := [elX],
        timeline := [ { time := 0, animations := [] } ] } 500 := by
  have h := dangling_target_noop "w" 5 none [elX] [] [] 0 [] []
    { target := "missing_id", direction := FadeDirection.fadeIn, duration := 1 }
    500 (by simp [elX])
  simpa using h

/-!
## Parser lemmas and claims
-/

theorem bind_eq_pBind {α β : Type} (p : P α) (f : α → P β) :
    p >>= f = pBind p f := rfl

theorem pure_eq_pPure {α : Type} (a : α) : (pure a : P α) = pPure a := rfl

theorem pBind_eq_some {α β : Type} (p : P α) (f : α → P β) (inp : List Char)
    (b : β) (rest : List Char) :
    pBind p f inp = some (b, rest) ↔
      ∃ a mid, p inp = some (a, mid) ∧ f a mid = some (b, rest) := by
  unfold pBind
  cases hp : p inp with
  | none => simp
  | some pr =>
    cases pr with
    | mk a mid =>
      simp only [Option.some.injEq, Prod.mk.injEq]
      constructor
      · intro hf
        exact ⟨a, mid, ⟨rfl, rfl⟩, hf⟩
      · rintro ⟨a1, m1, ⟨rfl, rfl⟩, hf⟩
        exact hf

theorem pMany1_eq_some {α : Type} (p : P α) (inp : List Char) (as : List α)
    (rest : List Char) (h : pMany1 p inp = some (as, rest)) :
    as ≠ [] ∧ ∃ a mid as2, p inp = some (a, mid) ∧ as = a :: as2 ∧
      pMany p mid = some (as2, rest) := by
  unfold pMany1 at h
  rw [pBind_eq_some] at h
  obtain ⟨a, mid, hp, h2⟩ := h
  rw [pBind_eq_some] at h2
  obtain ⟨as2, r2, hm, h3⟩ := h2
  unfold pPure at h3
  have h4 : a :: as2 = as ∧ r2 = rest := by
    simpa using Option.some.inj h3
  obtain ⟨h5, h6⟩ := h4
  exact ⟨h5 ▸ List.cons_ne_nil a as2, a, mid, as2, hp, h5.symm, h6 ▸ hm⟩

/-- The value of the last `duration:` fragment among a scene's parsed
property fragments, if any. -/
def lastDuration (props : List SceneProp) : Option ℚ :=
  (props.filterMap (fun p =>
    match p with | SceneProp.dur d => some d | _ => none)).getLast?

/-- The value of the last `narration:` fragment, if any. -/
def lastNarration (props : List SceneProp) : Option String :=
  (props.filterMap (fun p =>
    match p with | SceneProp.narr t => some t | _ => none)).getLast?

/-- The element list of the last `visuals { }` fragment, if any. -/
def lastVisuals (props : List SceneProp) : Option (List VisualElement) :=
  (props.filterMap (fun p =>
    match p with | SceneProp.vis es => some es | _ => none)).getLast?

/-- The event list of the last `timeline { }` fragment, if any. -/
def lastTimeline (props : List SceneProp) : Option (List TimelineEvent) :=
  (props.filterMap (fun p =>
    match p with | SceneProp.tl evs => some evs | _ => none)).getLast?

/-- The reduce-spread merge keeps, for each property keyword, exactly the
last occurrence (and `none` when the keyword never occurs). -/
theorem mkScene_last_write (title : String) (props : List SceneProp) :
    (mkScene title props).title = title ∧
    (mkScene title props).duration = lastDuration props ∧
    (mkScene title props).narration = lastNarration props ∧
    (mkScene title props).visuals = lastVisuals props ∧
    (mkScene title props).timeline = lastTimeline props := by
  induction props using List.reverseRecOn with
  | nil => exact ⟨rfl, rfl, rfl, rfl, rfl⟩
  | append_singleton ps p ih =>
    have hm : mkScene title (ps ++ [p]) = applyProp (mkScene title ps) p := by
      unfold mkScene
      rw [List.foldl_append]
      rfl
    obtain ⟨iht, ihd, ihn, ihv, ihl⟩ := ih
    cases p with
    | dur d =>
      rw [hm]
      simp [applyProp, lastDuration, lastNarration, lastVisuals,
        lastTimeline, List.filterMap_append, List.getLast?_concat,
        iht, ihd, ihn, ihv, ihl]
    | narr t =>
      rw [hm]
      simp [applyProp, lastDuration, lastNarration, lastVisuals,
        lastTimeline, List.filterMap_append, List.getLast?_concat,
        iht, ihd, ihn, ihv, ihl]
    | vis es =>
      rw [hm]
      simp [applyProp, lastDuration, lastNarration, lastVisuals,
        lastTimeline, List.filterMap_append, List.getLast?_concat,
        iht, ihd, ihn, ihv, ihl]
    | tl evs =>
      rw [hm]
      simp [applyProp, lastDuration, lastNarration, lastVisuals,
        lastTimeline, List.filterMap_append, List.getLast?_concat,
        iht, ihd, ihn, ihv, ihl]

/-- A run of a parser iterated from an input position: each listed value is
produced by one successful application of `p`, in order, each starting where
the previous one stopped. -/
inductive ParseStar {α : Type} (p : P α) : List Char → List α → List Char → Prop
  | done : ∀ inp, ParseStar p inp [] inp
  | step : ∀ inp a mid as rest, p inp = some (a, mid) →
      ParseStar p mid as rest → ParseStar p inp (a :: as) rest

theorem manyF_star {α : Type} (p : P α) (fuel : ℕ) :
    ∀ (inp : List Char) (as : List α) (rest : List Char),
      manyF fuel p inp = some (as, rest) → ParseStar p inp as rest := by
  induction fuel with
  | zero =>
    intro inp as rest h
    unfold manyF at h
    have h4 : [] = as ∧ inp = rest := by simpa using Option.some.inj h
    rw [← h4.1, h4.2] at *
    exact ParseStar.done rest
  | succ n ih =>
    intro inp as rest h
    unfold manyF at h
    cases hp : p inp with
    | none =>
      rw [hp] at h
      have h4 : [] = as ∧ inp = rest := by simpa using Option.some.inj h
      rw [← h4.1, h4.2] at *
      exact ParseStar.done rest
    | some pr =>
      cases pr with
      | mk a mid =>
        rw [hp] at h
        simp only [] at h
        cases hm : manyF n p mid with
        | none => rw [hm] at h; exact absurd h (by simp)
        | some mr =>
          cases mr with
          | mk as2 r2 =>
            rw [hm] at h
            have h4 : a :: as2 = as ∧ r2 = rest := by
              simpa using Option.some.inj h
            rw [← h4.1, ← h4.2]
            exact ParseStar.step inp a mid as2 r2 hp (ih mid as2 r2 hm)

theorem pMany1_star {α : Type} (p : P α) (inp : List Char) (as : List α)
    (rest : List Char) (h : pMany1 p inp = some (as, rest)) :
    ParseStar p inp as rest ∧ as ≠ [] := by
  obtain ⟨hne, a, mid, as2, hp, heq, hm⟩ := pMany1_eq_some p inp as rest h
  refine ⟨?_, hne⟩
  rw [heq]
  exact ParseStar.step inp a mid as2 rest hp
    (manyF_star p (mid.length + 1) mid as2 rest hm)

/-- C7: a scene block whose property keywords repeat still parses, and the
scene it yields is exactly the left-to-right merge of the property fragments
actually parsed from the block: `props` below is pinned by the run of
`SceneProperties+` inside this very parse (the `pMany1` equation, with a
`ParseStar` trace listing the fragments in declaration order), the scene is
`mkScene title props`, and each of its four property fields holds the value
of the *last* fragment carrying that keyword — earlier occurrences are
silently overwritten, so property order matters only through this
last-write-wins rule. -/
theorem scene_props_last_write (inp : List Char) (sc : ParsedScene)
    (rest : List Char) (h : pSceneBlock inp = some (sc, rest)) :
    ∃ (m1 m3 m5 m7 : List Char) (title : String) (props : List SceneProp),
      pLit "scene" inp = some ((), m1) ∧
      pStringLit (skipWs m1) = some (title, m3) ∧
      pLit "\x7b" (skipWs m3) = some ((), m5) ∧
      pMany1 pSceneProperties (skipWs m5) = some (props, m7) ∧
      ParseStar pSceneProperties (skipWs m5) props m7 ∧
      pLit "\x7d" (skipWs m7) = some ((), rest) ∧
      props ≠ [] ∧
      sc = mkScene title props ∧
      sc.duration = lastDuration props ∧
      sc.narration = lastNarration props ∧
      sc.visuals = lastVisuals props ∧
      sc.timeline = lastTimeline props := by
  unfold pSceneBlock at h
  simp only [bind_eq_pBind, pure_eq_pPure, pBind_eq_some] at h
  obtain ⟨u1, p1, h1, u2, p2, hws2, title, p3, h3, u4, p4, hws4, u5, p5, h5,
    u6, p6, hws6, props, p7, h7, u8, p8, hws8, u9, p9, h9, hfin⟩ := h
  unfold wsP at hws2 hws4 hws6 hws8
  have e2 : p2 = skipWs p1 := (congrArg Prod.snd (Option.some.inj hws2)).symm
  have e4 : p4 = skipWs p3 := (congrArg Prod.snd (Option.some.inj hws4)).symm
  have e6 : p6 = skipWs p5 := (congrArg Prod.snd (Option.some.inj hws6)).symm
  have e8 : p8 = skipWs p7 := (congrArg Prod.snd (Option.some.inj hws8)).symm
  have hsc : mkScene title props = sc := by
    unfold pPure at hfin
    exact congrArg Prod.fst (Option.some.inj hfin)
  have hrest : p9 = rest := by
    unfold pPure at hfin
    exact congrArg Prod.snd (Option.some.inj hfin)
  obtain ⟨hstar, hne⟩ := pMany1_star pSceneProperties p6 props p7 h7
  obtain ⟨-, hd, hn, hv, hl⟩ := mkScene_last_write title props
  refine ⟨p1, p3, p5, p7, title, props, h1, ?_, ?_, ?_, ?_, ?_, hne,
    hsc.symm, ?_, ?_, ?_, ?_⟩
  · rw [← e2]; exact h3
  · rw [← e4]; exact h5
  · rw [← e6]; exact h7
  · rw [← e6]; exact hstar
  · rw [← e8, ← hrest]; exact h9
  · rw [← hsc]; exact hd
  · rw [← hsc]; exact hn
  · rw [← hsc]; exact hv
  · rw [← hsc]; exact hl

/-- A scene block that repeats the `duration` keyword. -/
def dupPropText : String := "scene \"s\" \x7b duration: 1s duration: 2s \x7d"

/-- Witness for C7: the scene block with `duration: 1s duration: 2s` parses,
and the merged scene — whose `duration` is the last occurrence, `2s` — is the
last-write merge of the fragments parsed from that very block. -/
theorem scene_props_last_write_witness :
    pSceneBlock dupPropText.toList =
      some ({ title := "s", duration := some 2, narration := none,
              visuals := none, timeline := none }, []) ∧
    ∃ (m1 m3 m5 m7 : List Char) (title : String) (props : List SceneProp),
      pLit "scene" dupPropText.toList = some ((), m1) ∧
      pStringLit (skipWs m1) = some (title, m3) ∧
      pLit "\x7b" (skipWs m3) = some ((), m5) ∧
      pMany1 pSceneProperties (skipWs m5) = some (props, m7) ∧
      ParseStar pSceneProperties (skipWs m5) props m7 ∧
      pLit "\x7d" (skipWs m7) = some ((), []) ∧
      props ≠ [] ∧
      ({ title := "s", duration := some 2, narration := none,
         visuals := none, timeline := none } : ParsedScene) =
        mkScene title props ∧
      ({ title := "s", duration := some 2, narration := none,
         visuals := none, timeline := none } : ParsedScene).duration =
        lastDuration props ∧
      ({ title := "s", duration := some 2, narration := none,
         visuals := none, timeline := none } : ParsedScene).narration =
        lastNarration props ∧
      ({ title := "s", duration := some 2, narration := none,
         visuals := none, timeline := none } : ParsedScene).visuals =
        lastVisuals props ∧
      ({ title := "s", duration := some 2, narration := none,
         visuals := none, timeline := none } : ParsedScene).timeline =
        lastTimeline props := by
  have hp : pSceneBlock dupPropText.toList =
      some ({ title := "s", duration := some 2, narration := none,
              visuals := none, timeline := none }, []) := by
    rfl
  exact ⟨hp, scene_props_last_write dupPropText.toList _ [] hp⟩

/-- A script whose single scene has a `narration` but no `duration`. -/
def noDurationScript : String :=
  "video \x7b dimensions: (1280, 720) \x7d scene \"s\" \x7b narration: \"hi\" \x7d"

/-- C1 (failing input): the grammar only requires a non-empty property list
(`SceneProperties+`), so a scene block with no `duration` property parses
successfully — no SyntaxError — yielding a scene whose `duration` key is
absent, contradicting the required `duration: number` of the declared
`Scene` interface that `renderSceneFrames` relies on. -/
theorem missing_duration_parses :
    parse noDurationScript =
      some { video := { dimensions := { width := 1280, height := 720 } },
             scenes := [{ title := "s", duration := none,
                          narration := some "hi", visuals := none,
                          timeline := none }] } ∧
    (parse noDurationScript).map
        (fun prog => prog.scenes.map ParsedScene.duration) = some [none] :=
  ⟨rfl, rfl⟩

/-- A script whose scene declares `duration: -1s`. -/
def negDurationScript : String :=
  "video \x7b dimensions: (1, 1) \x7d scene \"s\" \x7b duration: -1s \x7d"

/-- Counterexample to C9 as stated: `duration: -1s` parses successfully into
a Program whose scene duration is the negative rational `-1`. -/
theorem negative_duration_counterexample :
    parse negDurationScript =
      some { video := { dimensions := { width := 1, height := 1 } },
             scenes := [{ title := "s", duration := some (-1),
                          narration := none, visuals := none,
                          timeline := none }] } ∧
    ¬ (0 : ℚ) ≤ -1 :=
  ⟨rfl, by norm_num⟩

/-- C9 (amended): a parsed `DurationLiteral` is non-negative whenever its
literal does not begin with a minus sign; the `Number` rule's optional
leading `-` is the only source of negative duration values. -/
theorem duration_literal_nonneg (inp : List Char) (q : ℚ) (rest : List Char)
    (h : pDurationLiteral inp = some (q, rest)) (hm : inp.head? ≠ some '-') :
    0 ≤ q := by
  unfold pDurationLiteral at h
  simp only [bind_eq_pBind, pure_eq_pPure, pBind_eq_some] at h
  obtain ⟨v, m1, hnum, -, m2, -, hfin⟩ := h
  have hq : v = q := by
    unfold pPure at hfin
    have h4 : v = q ∧ m2 = rest := by simpa using Option.some.inj hfin
    exact h4.1
  subst hq
  unfold pNumber at hnum
  rw [if_neg hm] at hnum
  have hnegf : (decide (inp.head? = some '-')) = false := by
    simpa using hm
  rw [hnegf] at hnum
  simp only [] at hnum
  split at hnum
  · exact absurd hnum (by simp)
  · split at hnum
    · have h4 := (Option.some.inj hnum)
      have h5 : (if false = true
          then -((digitsVal (inp.takeWhile Char.isDigit) : ℕ) +
            (digitsVal ((inp.drop (inp.takeWhile Char.isDigit).length).tail.takeWhile
              Char.isDigit) : ℕ) /
            (10 : ℚ) ^ ((inp.drop (inp.takeWhile Char.isDigit).length).tail.takeWhile
              Char.isDigit).length)
          else ((digitsVal (inp.takeWhile Char.isDigit) : ℕ) +
            (digitsVal ((inp.drop (inp.takeWhile Char.isDigit).length).tail.takeWhile
              Char.isDigit) : ℕ) /
            (10 : ℚ) ^ ((inp.drop (inp.takeWhile Char.isDigit).length).tail.takeWhile
              Char.isDigit).length)) = v := congrArg Prod.fst h4
      rw [if_neg (by simp)] at h5
      rw [← h5]
      positivity
    · have h4 := (Option.some.inj hnum)
      have h5 : (if false = true
          then -((digitsVal (inp.takeWhile Char.isDigit) : ℕ) : ℚ)
          else ((digitsVal (inp.takeWhile Char.isDigit) : ℕ) : ℚ)) = v :=
        congrArg Prod.fst h4
      rw [if_neg (by simp)] at h5
      rw [← h5]
      positivity

/-- Witness for C9 (amended): `5s` parses to the non-negative duration `5`. -/
theorem duration_literal_nonneg_witness :
    pDurationLiteral "5s".toList = some ((5 : ℚ), []) ∧ (0 : ℚ) ≤ 5 := by
  have h : pDurationLiteral "5s".toList = some ((5 : ℚ), []) := rfl
  exact ⟨h, duration_literal_nonneg "5s".toList 5 [] h (by decide)⟩

/-- C10: a successful parse decomposes the input as leading whitespace, one
video block, whitespace, a non-empty chain of scene blocks parsed in
sequence — `Program.scenes` lists their results in declaration order — and
trailing whitespace consuming the entire rest of the input; in particular
the program holds exactly the one parsed `Video` and at least one scene. -/
theorem program_structure (s : String) (prog : Program)
    (h : parse s = some prog) :
    prog.scenes ≠ [] ∧
    ∃ (v : Video) (i2 i3 : List Char),
      pVideoBlock (skipWs s.toList) = some (v, i2) ∧
      prog.video = v ∧
      ParseStar pSceneBlock (skipWs i2) prog.scenes i3 ∧
      skipWs i3 = [] := by
  unfold parse at h
  cases hp : pProgram s.toList with
  | none => rw [hp] at h; exact absurd h (by simp)
  | some pr =>
    cases pr with
    | mk prog2 rest =>
      rw [hp] at h
      cases rest with
      | cons c cs => exact absurd h (by simp)
      | nil =>
        have hprog : prog2 = prog := by simpa using Option.some.inj h
        subst hprog
        unfold pProgram at hp
        simp only [bind_eq_pBind, pure_eq_pPure, pBind_eq_some] at hp
        obtain ⟨u1, m1, hws1, v, m2, hv, u3, m3, hws3, scenes, m4, hsc,
          u5, m5, hws5, hfin⟩ := hp
        unfold wsP at hws1 hws3 hws5
        have h1 : m1 = skipWs s.toList := by
          have h4 : skipWs s.toList = m1 := congrArg Prod.snd (Option.some.inj hws1)
          exact h4.symm
        have h3 : m3 = skipWs m2 := by
          have h4 : skipWs m2 = m3 := congrArg Prod.snd (Option.some.inj hws3)
          exact h4.symm
        have h5 : m5 = skipWs m4 := by
          have h4 : skipWs m4 = m5 := congrArg Prod.snd (Option.some.inj hws5)
          exact h4.symm
        have hfin2 : prog2 = { video := v, scenes := scenes } ∧ m5 = [] := by
          unfold pPure at hfin
          have h4 := Option.some.inj hfin
          constructor
          · exact (congrArg Prod.fst h4).symm
          · exact (congrArg Prod.snd h4)
        obtain ⟨hplist, hm5⟩ := hfin2
        obtain ⟨hstar, hne⟩ := pMany1_star pSceneBlock m3 scenes m4 hsc
        refine ⟨by rw [hplist]; exact fun hh => hne (by simpa using hh), ?_⟩
        refine ⟨v, m2, m4, ?_, by rw [hplist], ?_, ?_⟩
        · rw [← h1]; exact hv
        · rw [hplist]
          show ParseStar pSceneBlock (skipWs m2) scenes m4
          rw [← h3]
          exact hstar
        · rw [← h5]; exact hm5

/-- A valid script with two scene blocks (the grammar's `SceneBlock+` makes
consecutive scene blocks adjacent: no whitespace is consumed between them). -/
def twoSceneScript : String :=
  "video \x7b dimensions: (1, 2) \x7d scene \"a\" \x7b duration: 1s \x7dscene \"b\" \x7b duration: 2s \x7d"

/-- The program `twoSceneScript` parses to. -/
def twoSceneProg : Program :=
  { video := { dimensions := { width := 1, height := 2 } },
    scenes :=
      [ { title := "a", duration := some 1, narration := none,
          visuals := none, timeline := none },
        { title := "b", duration := some 2, narration := none,
          visuals := none, timeline := none } ] }

/-- Witness for C10: the two-scene script parses to a program with exactly
one video spec and its two scenes in declaration order. -/
theorem program_structure_witness :
    parse twoSceneScript = some twoSceneProg ∧
    twoSceneProg.scenes.length = 2 ∧
    twoSceneProg.scenes ≠ [] := by
  have hp : parse twoSceneScript = some twoSceneProg := rfl
  exact ⟨hp, rfl, (program_structure twoSceneScript twoSceneProg hp).1⟩
